import Mathlib

/-!
Verification of the tinymqtt client library.

Shallow embedding of the repository's source files:
  * `src/flags.rs`         — the 8-bit flag value (`Flags`)
  * `src/reader_writer.rs` — `MqttMessageWriter` / `MqttMessageReader`
  * `src/lib.rs`           — `MqttClient` session state machine,
                             `PacketIdCounter`, `ControlPacketType`,
                             `receive_packet` dispatch loop

Modelling conventions:
  * Machine integers (`u8`, `u16`, `u32`, `usize`) are `Nat` with explicit
    `% 2^w` wherever the Rust code performs a truncating cast or a
    wrapping operation; arguments that are typed `u8`/`u16` in Rust are
    `Nat`s assumed to denote values of that width.
  * A Rust byte buffer is a `List Nat` of its live (written) prefix; the
    writer in `reader_writer.rs` only ever stores at its cursor (which
    always equals the number of bytes written so far) and the client only
    ever reads back the slice `[..payload_len]` it has just written, so
    appending to a list is an exact model of the written region.  Writing
    past the fixed capacity `N` is a fatal bounds abort (spec §7) and is
    outside the recoverable-error model, exactly as in the source.
  * Fallible code returns `Option`: `none` models a fatal runtime abort
    (out-of-bounds slice index, integer-overflow abort, failed `unwrap`),
    which Rust surfaces as a process-level abort, never as a value.
  * The receive loop additionally records, purely observationally, the
    list of states it assigns (`writes`) and the callback invocations it
    performs (`calls`), in order.
-/

/-- Connection state of a session (`MqttState` in `src/lib.rs`). -/
inductive MqttState where
  | Disconnected
  | Connecting
  | Connected
deriving DecidableEq, Repr

/-- Error kinds (`MqttError` in `src/lib.rs`). -/
inductive MqttError where
  | InvalidState
  | InvalidPacket
  | ConnectionRefused
  | Disconnected
deriving DecidableEq, Repr

/-- Control packet catalog (`ControlPacketType` in `src/lib.rs`),
with discriminants 1–15. -/
inductive ControlPacketType where
  | CONNECT
  | CONNACK
  | PUBLISH
  | PUBACK
  | PUBREC
  | PUBREL
  | PUBCOMP
  | SUBSCRIBE
  | SUBACK
  | UNSUBSCRIBE
  | UNSUBACK
  | PINGREQ
  | PINGRESP
  | DISCONNECT
  | AUTH
deriving DecidableEq, Repr

/-- The numeric code of a packet type (`ty as u8` on the Rust enum). -/
def ControlPacketType.toNat : ControlPacketType → Nat
  | .CONNECT => 1
  | .CONNACK => 2
  | .PUBLISH => 3
  | .PUBACK => 4
  | .PUBREC => 5
  | .PUBREL => 6
  | .PUBCOMP => 7
  | .SUBSCRIBE => 8
  | .SUBACK => 9
  | .UNSUBSCRIBE => 10
  | .UNSUBACK => 11
  | .PINGREQ => 12
  | .PINGRESP => 13
  | .DISCONNECT => 14
  | .AUTH => 15

/-- `ControlPacketType::from_u8` (derived `FromPrimitive`): the partial
inverse of the discriminant map; `none` for any code outside 1–15. -/
def ControlPacketType.fromU8 : Nat → Option ControlPacketType
  | 1 => some .CONNECT
  | 2 => some .CONNACK
  | 3 => some .PUBLISH
  | 4 => some .PUBACK
  | 5 => some .PUBREC
  | 6 => some .PUBREL
  | 7 => some .PUBCOMP
  | 8 => some .SUBSCRIBE
  | 9 => some .SUBACK
  | 10 => some .UNSUBSCRIBE
  | 11 => some .UNSUBACK
  | 12 => some .PINGREQ
  | 13 => some .PINGRESP
  | 14 => some .DISCONNECT
  | 15 => some .AUTH
  | _ => none

/-- The 8-bit flag value of `src/flags.rs`. -/
structure Flags where
  value : Nat
deriving DecidableEq, Repr

/-- `Flags::zero`. -/
def Flags.zero : Flags := ⟨0⟩

/-- `Flags::new(value)`. -/
def Flags.new (value : Nat) : Flags := ⟨value⟩

/-- `Flags::set(index)`: sets bit `index` (callers use indices 0–7). -/
def Flags.set (f : Flags) (index : Nat) : Flags := ⟨f.value ||| (1 <<< index)⟩

/-- `Flags::get(index)`. -/
def Flags.get (f : Flags) (index : Nat) : Bool := f.value &&& (1 <<< index) != 0

/-- `PacketIdCounter::new()`: the `counter: u16` field starts at 1. -/
def PacketIdCounter.new : Nat := 1

/-- `PacketIdCounter::next()`: returns the current value and stores
`counter.wrapping_add(1).max(1)` — wrap through the 16-bit range, then
force 0 back up to 1.  Result: (returned id, new counter value). -/
def PacketIdCounter.next (counter : Nat) : Nat × Nat :=
  (counter, max ((counter + 1) % 65536) 1)

/-! ## Message writer (`MqttMessageWriter`, `src/reader_writer.rs`)

A writer borrows a buffer and a cursor equal to the bytes written so far;
each operation stores at the cursor and advances it.  We model the
written region as a `List Nat` which each operation extends. -/

/-- `MqttMessageWriter::write_u8`. -/
def writeU8 (buf : List Nat) (value : Nat) : List Nat := buf ++ [value]

/-- `MqttMessageWriter::write_flags`. -/
def writeFlags (buf : List Nat) (value : Flags) : List Nat := writeU8 buf value.value

/-- `MqttMessageWriter::write_u16`: big-endian, `(value >> 8) as u8`
then `value as u8`. -/
def writeU16 (buf : List Nat) (value : Nat) : List Nat :=
  buf ++ [(value >>> 8) % 256, value % 256]

/-- `MqttMessageWriter::write_bytes_raw`. -/
def writeBytesRaw (buf : List Nat) (value : List Nat) : List Nat := buf ++ value

/-- `MqttMessageWriter::write_string`: `value.len() as u16` big-endian,
then the UTF-8 bytes.  A Rust `&str` is modelled by the list of its
UTF-8 bytes. -/
def writeString (buf : List Nat) (value : List Nat) : List Nat :=
  writeBytesRaw (writeU16 buf (value.length % 65536)) value

/-- `MqttMessageWriter::write_bytes`: 2-byte length prefix, then bytes. -/
def writeBytes (buf : List Nat) (value : List Nat) : List Nat :=
  writeBytesRaw (writeU16 buf (value.length % 65536)) value

/-- The loop of `MqttMessageWriter::write_variable_int`: repeatedly emit
the low 7 bits (`value & 0x7F`), with the continuation bit `0x80` or-ed
in when `value >> 7` is still positive, until the remaining value is
zero.  Structural recursion on `fuel`, which only bounds the iteration
count: the loop shrinks `value` strictly (`value >>> 7 < value` whenever
positive), so any `fuel ≥ value` is enough and the `fuel = 0` emergency
base case is unreachable from `writeVarIntBytes`
(`writeVarIntLoop_irrel` below makes this precise). -/
def writeVarIntLoop : Nat → Nat → List Nat
  | 0, value => [value &&& 127]
  | fuel + 1, value =>
    if value >>> 7 > 0 then
      ((value &&& 127) ||| 128) :: writeVarIntLoop fuel (value >>> 7)
    else
      [value &&& 127]

/-- The byte sequence emitted by `MqttMessageWriter::write_variable_int`.
Always emits at least one byte. -/
def writeVarIntBytes (value : Nat) : List Nat := writeVarIntLoop value value

/-- `MqttMessageWriter::write_variable_int` as a writer operation. -/
def writeVarInt (buf : List Nat) (value : Nat) : List Nat :=
  buf ++ writeVarIntBytes value

/-! ## Message reader (`MqttMessageReader`, `src/reader_writer.rs`)

A reader borrows an immutable byte slice and a cursor; each operation
returns the value read and the advanced cursor, or `none` on an
out-of-bounds access (a fatal slice-index abort in Rust).  The `mark`
field is threaded explicitly by `receive_packet` below, which is its
only user. -/

/-- `MqttMessageReader::read_u8`. -/
def readU8 (buf : List Nat) (cursor : Nat) : Option (Nat × Nat) :=
  match buf.get? cursor with
  | some b => some (b, cursor + 1)
  | none => none

/-- `MqttMessageReader::read_u16`: `(b0 << 8) | b1`, big-endian. -/
def readU16 (buf : List Nat) (cursor : Nat) : Option (Nat × Nat) :=
  match buf.get? cursor, buf.get? (cursor + 1) with
  | some b0, some b1 => some ((b0 <<< 8) ||| b1, cursor + 2)
  | _, _ => none

/-- `MqttMessageReader::read_bytes_raw(length)`: the slice
`buffer[cursor..cursor+length]`; aborts if it runs past the end. -/
def readBytesRaw (buf : List Nat) (cursor length : Nat) : Option (List Nat × Nat) :=
  if cursor + length ≤ buf.length then
    some ((buf.drop cursor).take length, cursor + length)
  else
    none

/-- A byte sequence is valid UTF-8 (RFC 3629 table): the check performed
by `core::str::from_utf8` inside `MqttMessageReader::read_string`. -/
def validUtf8 : List Nat → Bool
  | [] => true
  | b :: rest =>
    if b < 0x80 then validUtf8 rest
    else if 0xC2 ≤ b ∧ b ≤ 0xDF then
      match rest with
      | c1 :: r => (0x80 ≤ c1 && c1 ≤ 0xBF) && validUtf8 r
      | [] => false
    else if b = 0xE0 then
      match rest with
      | c1 :: c2 :: r =>
        (0xA0 ≤ c1 && c1 ≤ 0xBF) && (0x80 ≤ c2 && c2 ≤ 0xBF) && validUtf8 r
      | _ => false
    else if (0xE1 ≤ b ∧ b ≤ 0xEC) ∨ b = 0xEE ∨ b = 0xEF then
      match rest with
      | c1 :: c2 :: r =>
        (0x80 ≤ c1 && c1 ≤ 0xBF) && (0x80 ≤ c2 && c2 ≤ 0xBF) && validUtf8 r
      | _ => false
    else if b = 0xED then
      match rest with
      | c1 :: c2 :: r =>
        (0x80 ≤ c1 && c1 ≤ 0x9F) && (0x80 ≤ c2 && c2 ≤ 0xBF) && validUtf8 r
      | _ => false
    else if b = 0xF0 then
      match rest with
      | c1 :: c2 :: c3 :: r =>
        (0x90 ≤ c1 && c1 ≤ 0xBF) && (0x80 ≤ c2 && c2 ≤ 0xBF) &&
          (0x80 ≤ c3 && c3 ≤ 0xBF) && validUtf8 r
      | _ => false
    else if 0xF1 ≤ b ∧ b ≤ 0xF3 then
      match rest with
      | c1 :: c2 :: c3 :: r =>
        (0x80 ≤ c1 && c1 ≤ 0xBF) && (0x80 ≤ c2 && c2 ≤ 0xBF) &&
          (0x80 ≤ c3 && c3 ≤ 0xBF) && validUtf8 r
      | _ => false
    else if b = 0xF4 then
      match rest with
      | c1 :: c2 :: c3 :: r =>
        (0x80 ≤ c1 && c1 ≤ 0x8F) && (0x80 ≤ c2 && c2 ≤ 0xBF) &&
          (0x80 ≤ c3 && c3 ≤ 0xBF) && validUtf8 r
      | _ => false
    else false

/-- `MqttMessageReader::read_string`: 2-byte length, then that many
bytes, which `from_utf8(..).unwrap()` requires to be valid UTF-8
(`none` models the abort on invalid UTF-8 or a short buffer). -/
def readString (buf : List Nat) (cursor : Nat) : Option (List Nat × Nat) :=
  match readU16 buf cursor with
  | none => none
  | some (len, c1) =>
    if c1 + len ≤ buf.length then
      let s := (buf.drop c1).take len
      if validUtf8 s then some (s, c1 + len) else none
    else none

/-- One iteration step of `MqttMessageReader::read_variable_int`:
accumulate `(byte & 0x7F) << shift` into a `u32` with `|=`, advance
`shift` by 7, stop on a byte without the continuation bit.  A shift
amount ≥ 32 is a `u32` shift-overflow abort (`none`), as is reading
past the end of the slice.  `fuel` bounds the iteration count; the
wrapper passes 6, which the shift guard makes unreachable. -/
def readVarIntAux (buf : List Nat) (cursor shift value fuel : Nat) : Option (Nat × Nat) :=
  match fuel with
  | 0 => none
  | fuel + 1 =>
    if 32 ≤ shift then none
    else
      match buf.get? cursor with
      | none => none
      | some byte =>
        let value := value ||| (((byte &&& 127) <<< shift) % 2 ^ 32)
        if byte &&& 128 = 0 then some (value, cursor + 1)
        else readVarIntAux buf (cursor + 1) (shift + 7) value fuel

/-- `MqttMessageReader::read_variable_int`, starting with
`value = 0`, `shift = 0`. -/
def readVarInt (buf : List Nat) (cursor : Nat) : Option (Nat × Nat) :=
  readVarIntAux buf cursor 0 0 6

/-! ## Client session (`MqttClient<N>`, `src/lib.rs`) -/

/-- `MqttClient<N>`: connection state, packet-identifier counter, and the
two internal byte arenas (their written prefixes). -/
structure MqttClient where
  state : MqttState
  packetCounter : Nat
  constructBuffer : List Nat
  messageBuffer : List Nat
deriving DecidableEq, Repr

deriving instance DecidableEq for Except

/-- `MqttClient::new()`: state `Disconnected`, counter 1, zeroed buffers
(no bytes written yet). -/
def MqttClient.new : MqttClient := ⟨.Disconnected, PacketIdCounter.new, [], []⟩

/-- `MqttClient::assert_state`. -/
def MqttClient.assertState (c : MqttClient) (state : MqttState) : Except MqttError Unit :=
  if c.state ≠ state then .error .InvalidState else .ok ()

/-- `MqttClient::write_packet`: into the message buffer, write
`(ty as u8) << 4 | flags.value`, then the payload length as a variable
integer (`payload_len as u32`), then copy
`construct_buffer[..payload_len]`; return the written slice. -/
def MqttClient.writePacket (c : MqttClient) (ty : ControlPacketType) (flags : Flags)
    (payloadLen : Nat) : Except MqttError (List Nat) × MqttClient :=
  let msg := writeBytesRaw
    (writeVarInt (writeU8 [] ((ty.toNat <<< 4) ||| flags.value)) (payloadLen % 2 ^ 32))
    (c.constructBuffer.take payloadLen)
  (.ok msg, { c with messageBuffer := msg })

/-- `MqttClient::connect(client_id, username_password)`: build the
CONNECT packet into the construct buffer, set state `Connecting`
unconditionally, frame via `write_packet`.  `client_id`, `username`,
`password` are UTF-8 byte lists. -/
def MqttClient.connect (c : MqttClient) (clientId : List Nat)
    (usernamePassword : Option (List Nat × List Nat)) :
    Except MqttError (List Nat) × MqttClient :=
  let flags := if usernamePassword.isSome
    then ((Flags.zero.set 1).set 6).set 7
    else Flags.zero.set 1
  -- variable header: "MQTT", version 0x05, connect flags, keep-alive 0,
  -- property length 0; payload: client id, then optional credentials
  let body := writeString (writeU8 (writeU16 (writeFlags
    (writeU8 (writeString [] [77, 81, 84, 84]) 0x05) flags) 0) 0) clientId
  let body := match usernamePassword with
    | some (username, password) => writeString (writeString body username) password
    | none => body
  let c := { c with constructBuffer := body, state := .Connecting }
  c.writePacket .CONNECT Flags.zero body.length

/-- `MqttClient::publish(topic, payload)`: requires `Connected` (checked
before any write); topic string, packet identifier 0, property length 0,
then the raw payload; framed as PUBLISH with flags 0. -/
def MqttClient.publish (c : MqttClient) (topic payload : List Nat) :
    Except MqttError (List Nat) × MqttClient :=
  match c.assertState .Connected with
  | .error e => (.error e, c)
  | .ok _ =>
    let body := writeBytesRaw (writeU8 (writeU16 (writeString [] topic) 0) 0) payload
    let c := { c with constructBuffer := body }
    c.writePacket .PUBLISH Flags.zero body.length

/-- `MqttClient::subscribe(topic_filter)`: requires `Connected`; next
packet identifier, property length 0, topic filter, subscription-options
byte 0; framed as SUBSCRIBE with fixed-header flags `0b0010`. -/
def MqttClient.subscribe (c : MqttClient) (topicFilter : List Nat) :
    Except MqttError (List Nat) × MqttClient :=
  match c.assertState .Connected with
  | .error e => (.error e, c)
  | .ok _ =>
    let (id, counter) := PacketIdCounter.next c.packetCounter
    let body := writeFlags (writeString (writeU8 (writeU16 [] id) 0) topicFilter) Flags.zero
    let c := { c with constructBuffer := body, packetCounter := counter }
    c.writePacket .SUBSCRIBE (Flags.new 0b0010) body.length

/-- `MqttClient::unsubscribe(topic_filter)`: as `subscribe` but without
the subscription-options byte; framed as UNSUBSCRIBE with flags
`0b0010`. -/
def MqttClient.unsubscribe (c : MqttClient) (topicFilter : List Nat) :
    Except MqttError (List Nat) × MqttClient :=
  match c.assertState .Connected with
  | .error e => (.error e, c)
  | .ok _ =>
    let (id, counter) := PacketIdCounter.next c.packetCounter
    let body := writeString (writeU8 (writeU16 [] id) 0) topicFilter
    let c := { c with constructBuffer := body, packetCounter := counter }
    c.writePacket .UNSUBSCRIBE (Flags.new 0b0010) body.length

/-- Result of `MqttClient::receive_packet`, with the observational
record of the callback invocations (`calls`, in order, topic and
payload) and of the state values the loop itself assigned (`writes`). -/
structure ReceiveOut where
  result : Except MqttError MqttState
  client : MqttClient
  calls : List (List Nat × List Nat)
  writes : List MqttState
deriving DecidableEq, Repr

/-- The `while reader.remaining() > 0` loop of
`MqttClient::receive_packet`.  Per iteration: read the fixed-header
byte, `ControlPacketType::from_u8(header >> 4).unwrap()` (`none` on
code 0), read the remaining length, set the mark (the cursor right
after the remaining-length field), dispatch on the packet type, and —
unless the arm returned early — `skip_to` the packet's declared end
(cursor := mark + remaining length) and continue.  `remaining()` is
`buffer.len() - cursor` on `usize`, an underflow abort when the cursor
has been skipped past the end.  `fuel` bounds the iterations; the
wrapper supplies `packet.length + 1`, enough because every iteration
advances the cursor. -/
def receiveLoop (cb : MqttClient → List Nat → List Nat → MqttClient) :
    Nat → MqttClient → List Nat → Nat → List (List Nat × List Nat) → List MqttState →
    Option ReceiveOut
  | 0, _, _, _, _, _ => none
  | fuel + 1, client, buf, cursor, calls, writes =>
    if buf.length < cursor then none
    else if buf.length - cursor = 0 then some ⟨.ok client.state, client, calls, writes⟩
    else
      match readU8 buf cursor with
      | none => none
      | some (fixedHeader, c1) =>
        match ControlPacketType.fromU8 (fixedHeader >>> 4) with
        | none => none
        | some ty =>
          match readVarInt buf c1 with
          | none => none
          | some (remainingLength, mark) =>
            match ty with
            | .CONNACK =>
              match readU8 buf mark with
              | none => none
              | some (_connectAck, c3) =>
                match readU8 buf c3 with
                | none => none
                | some (reasonCode, _c4) =>
                  if reasonCode ≠ 0 then
                    some ⟨.error .ConnectionRefused,
                      { client with state := .Disconnected },
                      calls, writes ++ [.Disconnected]⟩
                  else
                    receiveLoop cb fuel { client with state := .Connected } buf
                      (mark + remainingLength) calls (writes ++ [.Connected])
            | .SUBACK => receiveLoop cb fuel client buf (mark + remainingLength) calls writes
            | .UNSUBACK => receiveLoop cb fuel client buf (mark + remainingLength) calls writes
            | .PUBLISH =>
              match readString buf mark with
              | none => none
              | some (topic, c3) =>
                match readVarInt buf c3 with
                | none => none
                | some (propertyLength, c4) =>
                  let c5 := c4 + propertyLength   -- reader.skip(property_length)
                  let dist := c5 - mark           -- reader.distance_from_mark()
                  if remainingLength < dist then none  -- usize subtraction underflow abort
                  else
                    match readBytesRaw buf c5 (remainingLength - dist) with
                    | none => none
                    | some (payload, _c6) =>
                      receiveLoop cb fuel (cb client topic payload) buf
                        (mark + remainingLength) (calls ++ [(topic, payload)]) writes
            | .DISCONNECT =>
              some ⟨.error .Disconnected, { client with state := .Disconnected },
                calls, writes ++ [.Disconnected]⟩
            | _ => some ⟨.error .InvalidPacket, client, calls, writes⟩

/-- `MqttClient::receive_packet(packet, on_publish_rec)`. -/
def receivePacket (cb : MqttClient → List Nat → List Nat → MqttClient)
    (client : MqttClient) (packet : List Nat) : Option ReceiveOut :=
  receiveLoop cb (packet.length + 1) client packet 0 [] []

/-! ## Helper lemmas: bit arithmetic and list indexing -/

theorem and127_eq_mod (x : Nat) : x &&& 127 = x % 128 := by
  have h : (127 : Nat) = 2 ^ 7 - 1 := by norm_num
  have h2 : (128 : Nat) = 2 ^ 7 := by norm_num
  rw [h, h2, Nat.and_pow_two_sub_one_eq_mod]

theorem or_disjoint {a b s : Nat} (h : a < 2 ^ s) : a ||| b * 2 ^ s = a + b * 2 ^ s := by
  have h2 := Nat.mul_add_lt_is_or (i := s) (a := b) h
  rw [Nat.mul_comm b, Nat.lor_comm, ← h2]
  ring

theorem lt128_and128 {x : Nat} (h : x < 128) : x &&& 128 = 0 := by
  have h2 : (128 : Nat) = 2 ^ 7 := by norm_num
  rw [h2, Nat.and_two_pow, Nat.testBit_lt_two_pow (by omega)]
  rfl

theorem add128_and127 : ∀ x < 128, (x + 128) &&& 127 = x := by decide

theorem add128_and128 : ∀ x < 128, (x + 128) &&& 128 = 128 := by decide

theorem get?_append_cons (pre : List Nat) (b : Nat) (post : List Nat) :
    (pre ++ b :: post).get? pre.length = some b := by
  rw [List.get?_append_right (Nat.le_refl _)]
  simp

/-! ## The variable-byte-integer encoding -/

/-- The fuel argument of `writeVarIntLoop` is irrelevant as long as it
dominates the value. -/
theorem writeVarIntLoop_irrel :
    ∀ f1 f2 v, v ≤ f1 → v ≤ f2 → writeVarIntLoop f1 v = writeVarIntLoop f2 v := by
  intro f1
  induction f1 with
  | zero =>
    intro f2 v h1 h2
    have hv : v = 0 := by omega
    subst hv
    cases f2 with
    | zero => rfl
    | succ f => simp [writeVarIntLoop]
  | succ f1 ih =>
    intro f2 v h1 h2
    cases f2 with
    | zero =>
      have hv : v = 0 := by omega
      subst hv
      simp [writeVarIntLoop]
    | succ f2' =>
      rw [writeVarIntLoop, writeVarIntLoop]
      by_cases h : v >>> 7 > 0
      · rw [if_pos h, if_pos h]
        have hdiv : v >>> 7 = v / 128 := by rw [Nat.shiftRight_eq_div_pow]
        have hlt : v / 128 < v := by
          refine Nat.div_lt_self ?_ (by norm_num)
          rw [hdiv] at h
          omega
        rw [ih f2' (v >>> 7) (by omega) (by omega)]
      · rw [if_neg h, if_neg h]

/-- Arithmetic normal form of one unfolding of `writeVarIntBytes`. -/
theorem writeVarIntBytes_eq (v : Nat) :
    writeVarIntBytes v =
      if 0 < v / 128 then (v % 128 + 128) :: writeVarIntBytes (v / 128)
      else [v % 128] := by
  have hdiv : v >>> 7 = v / 128 := by rw [Nat.shiftRight_eq_div_pow]
  have h128 : v % 128 ||| 128 = v % 128 + 128 := by
    have h := or_disjoint (a := v % 128) (b := 1) (s := 7)
      (Nat.mod_lt _ (by norm_num))
    norm_num at h
    exact h
  unfold writeVarIntBytes
  cases v with
  | zero => simp [writeVarIntLoop]
  | succ n =>
    rw [writeVarIntLoop]
    by_cases h : (n + 1) >>> 7 > 0
    · have hpos : 0 < (n + 1) / 128 := by rw [← hdiv]; exact h
      rw [if_pos h, if_pos hpos, and127_eq_mod, h128, hdiv]
      have hlt : (n + 1) / 128 < n + 1 := Nat.div_lt_self (by omega) (by norm_num)
      rw [writeVarIntLoop_irrel n ((n + 1) / 128) ((n + 1) / 128) (by omega) (by omega)]
    · have hpos : ¬ 0 < (n + 1) / 128 := by rw [← hdiv]; exact h
      rw [if_neg h, if_neg hpos, and127_eq_mod]

theorem writeVarIntBytes_length_pos (v : Nat) : 1 ≤ (writeVarIntBytes v).length := by
  rw [writeVarIntBytes_eq]
  split <;> simp

/-- Minimality of the encoding: for `n ≥ 1`, the encoding fits in `n`
bytes exactly when the value is below `128 ^ n`. -/
theorem writeVarIntBytes_length_le_iff :
    ∀ v n, 1 ≤ n → ((writeVarIntBytes v).length ≤ n ↔ v < 128 ^ n) := by
  intro v
  induction v using Nat.strong_induction_on with
  | _ v ih =>
    intro n hn
    rw [writeVarIntBytes_eq]
    by_cases h : 0 < v / 128
    · have hv : 128 ≤ v := by omega
      rcases Nat.exists_eq_add_of_le hn with ⟨m, rfl⟩
      simp only [if_pos h, List.length_cons]
      by_cases hm : 1 ≤ m
      · have hih := ih (v / 128) (Nat.div_lt_self (by omega) (by norm_num)) m hm
        have hdiv : v / 128 < 128 ^ m ↔ v < 128 ^ (1 + m) := by
          rw [Nat.div_lt_iff_lt_mul (by norm_num : (0:Nat) < 128)]
          rw [pow_add, pow_one]
          constructor <;> intro <;> nlinarith [pow_pos (show (0:Nat) < 128 by norm_num) m]
        rw [← hdiv, ← hih]
        omega
      · have hm0 : m = 0 := by omega
        subst hm0
        have hp := writeVarIntBytes_length_pos (v / 128)
        constructor
        · intro hle; omega
        · intro hlt
          rw [pow_one] at hlt
          omega
    · have hv : v < 128 := by omega
      simp only [if_neg h, List.length_singleton]
      constructor
      · intro _
        calc v < 128 := hv
          _ = 128 ^ 1 := (pow_one 128).symm
          _ ≤ 128 ^ n := Nat.pow_le_pow_right (by norm_num) hn
      · intro _
        exact hn

/-- Reading back an encoding produced by the writer, from an arbitrary
position inside a larger buffer: the `u32` invariants of the source
(`shift < 32`, no truncation, accumulated bits below the shift) are
carried as hypotheses. -/
theorem readVarIntAux_write :
    ∀ v pre post value shift fuel,
      shift < 32 → v * 2 ^ shift < 2 ^ 32 → value < 2 ^ shift →
      (writeVarIntBytes v).length ≤ fuel →
      readVarIntAux (pre ++ (writeVarIntBytes v ++ post)) pre.length shift value fuel
        = some (value + v * 2 ^ shift, pre.length + (writeVarIntBytes v).length) := by
  intro v
  induction v using Nat.strong_induction_on with
  | _ v ih =>
    intro pre post value shift fuel hshift hnotrunc hvalue hfuel
    rw [writeVarIntBytes_eq] at hfuel ⊢
    by_cases h : 0 < v / 128
    · -- continuation byte (v % 128 + 128), then the encoding of v / 128
      have hv : 128 ≤ v := by omega
      simp only [if_pos h, List.length_cons] at hfuel ⊢
      obtain ⟨fuel', rfl⟩ : ∃ f, fuel = f + 1 := by
        cases fuel with
        | zero => omega
        | succ f => exact ⟨f, rfl⟩
      rw [readVarIntAux]
      simp only [Nat.not_le.mpr hshift, if_false, List.cons_append, get?_append_cons]
      have hmod : v % 128 < 128 := Nat.mod_lt _ (by norm_num)
      rw [add128_and127 (v % 128) hmod]
      have hne : (v % 128 + 128) &&& 128 = 128 := add128_and128 (v % 128) hmod
      rw [hne]
      simp only [show (128 : Nat) ≠ 0 by norm_num, if_false]
      -- the accumulated u32 value after this byte
      have hcontrib : ((v % 128) <<< shift) % 2 ^ 32 = (v % 128) * 2 ^ shift := by
        rw [Nat.shiftLeft_eq]
        exact Nat.mod_eq_of_lt (lt_of_le_of_lt
          (Nat.mul_le_mul_right _ (Nat.mod_le v 128)) hnotrunc)
      rw [hcontrib, or_disjoint hvalue]
      -- recursive call: shift advances by 7, tail encodes v / 128
      have hstep : (2 : Nat) ^ (shift + 7) = 2 ^ shift * 128 := by
        rw [pow_add]; norm_num
      have hshift' : shift + 7 < 32 := by
        have : (2 : Nat) ^ (shift + 7) ≤ v * 2 ^ shift := by
          rw [hstep, Nat.mul_comm]
          exact Nat.mul_le_mul_right _ hv
        have h2 : (2 : Nat) ^ (shift + 7) < 2 ^ 32 := lt_of_le_of_lt this hnotrunc
        exact (Nat.pow_lt_pow_iff_right (by norm_num)).mp h2
      have hnotrunc' : (v / 128) * 2 ^ (shift + 7) < 2 ^ 32 := by
        rw [hstep, ← Nat.mul_assoc]
        calc v / 128 * 2 ^ shift * 128 = v / 128 * 128 * 2 ^ shift := by ring
          _ ≤ v * 2 ^ shift := Nat.mul_le_mul_right _ (Nat.div_mul_le_self v 128)
          _ < 2 ^ 32 := hnotrunc
      have hvalue' : value + v % 128 * 2 ^ shift < 2 ^ (shift + 7) := by
        rw [hstep]
        have : value + v % 128 * 2 ^ shift < 2 ^ shift + 127 * 2 ^ shift := by
          have := Nat.mul_le_mul_right (2 ^ shift) (show v % 128 ≤ 127 by omega)
          omega
        nlinarith [pow_pos (show (0:Nat) < 2 by norm_num) shift]
      have hrec := ih (v / 128) (Nat.div_lt_self (by omega) (by norm_num))
        (pre ++ [v % 128 + 128]) post (value + v % 128 * 2 ^ shift) (shift + 7) fuel'
        hshift' hnotrunc' hvalue' (by omega)
      have hbuf : pre ++ (v % 128 + 128) :: (writeVarIntBytes (v / 128) ++ post)
          = (pre ++ [v % 128 + 128]) ++ (writeVarIntBytes (v / 128) ++ post) := by
        simp
      have hlen : (pre ++ [v % 128 + 128]).length = pre.length + 1 := by simp
      rw [hbuf, ← hlen, hrec, hlen]
      have hval : value + v % 128 * 2 ^ shift + v / 128 * 2 ^ (shift + 7)
          = value + v * 2 ^ shift := by
        have hsplit : v % 128 + 128 * (v / 128) = v := Nat.mod_add_div v 128
        rw [hstep]
        calc value + v % 128 * 2 ^ shift + v / 128 * (2 ^ shift * 128)
            = value + (v % 128 + 128 * (v / 128)) * 2 ^ shift := by ring
          _ = value + v * 2 ^ shift := by rw [hsplit]
      rw [hval]
      simp only [Option.some.injEq, Prod.mk.injEq, true_and]
      omega
    · -- final byte: v itself (v < 128)
      have hv : v < 128 := by omega
      simp only [if_neg h, List.length_singleton] at hfuel ⊢
      obtain ⟨fuel', rfl⟩ : ∃ f, fuel = f + 1 := by
        cases fuel with
        | zero => omega
        | succ f => exact ⟨f, rfl⟩
      rw [readVarIntAux]
      simp only [Nat.not_le.mpr hshift, if_false, List.cons_append, List.nil_append,
        get?_append_cons]
      rw [Nat.mod_eq_of_lt hv] at *
      have hcontrib : (v <<< shift) % 2 ^ 32 = v * 2 ^ shift := by
        rw [Nat.shiftLeft_eq]
        exact Nat.mod_eq_of_lt hnotrunc
      rw [and127_eq_mod, Nat.mod_eq_of_lt hv, lt128_and128 hv, hcontrib,
        or_disjoint hvalue]
      simp

/-- Round trip for `read_variable_int` on a writer-produced encoding
embedded at an arbitrary position. -/
theorem readVarInt_write (v : Nat) (pre post : List Nat) (hv : v < 2 ^ 32) :
    readVarInt (pre ++ (writeVarIntBytes v ++ post)) pre.length
      = some (v, pre.length + (writeVarIntBytes v).length) := by
  have hlen : (writeVarIntBytes v).length ≤ 6 := by
    have h5 := (writeVarIntBytes_length_le_iff v 5 (by norm_num)).mpr
      (lt_of_lt_of_le hv (by norm_num))
    omega
  have := readVarIntAux_write v pre post 0 0 6 (by norm_num) (by simpa using hv)
    (by norm_num) hlen
  simpa [readVarInt] using this

/-! ## Claim theorems: builders, counter, codec -/

/-- C1: a freshly constructed session is `Disconnected`; `connect`
transitions the state to `Connecting` regardless of the prior state;
`publish`, `subscribe` and `unsubscribe`, called in any state other than
`Connected`, fail with `InvalidState` and leave the session — in
particular `construct_buffer` and `message_buffer` — unchanged. -/
theorem C1_session_state_machine :
    MqttClient.new.state = .Disconnected ∧
    (∀ (c : MqttClient) (cid : List Nat) (up : Option (List Nat × List Nat)),
      ((c.connect cid up).2).state = .Connecting) ∧
    (∀ (c : MqttClient) (t p : List Nat), c.state ≠ .Connected →
      c.publish t p = (.error .InvalidState, c)) ∧
    (∀ (c : MqttClient) (f : List Nat), c.state ≠ .Connected →
      c.subscribe f = (.error .InvalidState, c)) ∧
    (∀ (c : MqttClient) (f : List Nat), c.state ≠ .Connected →
      c.unsubscribe f = (.error .InvalidState, c)) := by
  refine ⟨rfl, ?_, ?_, ?_, ?_⟩
  · intro c cid up
    cases up <;> rfl
  · intro c t p h
    simp [MqttClient.publish, MqttClient.assertState, h]
  · intro c f h
    simp [MqttClient.subscribe, MqttClient.assertState, h]
  · intro c f h
    simp [MqttClient.unsubscribe, MqttClient.assertState, h]

/-- Witness for C1 at concrete inputs. -/
theorem C1_session_state_machine_witness :
    ((⟨.Disconnected, 1, [], []⟩ : MqttClient).state ≠ .Connected) ∧
    MqttClient.publish ⟨.Disconnected, 1, [], []⟩ [116] [104]
      = (.error .InvalidState, ⟨.Disconnected, 1, [], []⟩) ∧
    MqttClient.subscribe ⟨.Connecting, 1, [], []⟩ [116]
      = (.error .InvalidState, ⟨.Connecting, 1, [], []⟩) ∧
    MqttClient.unsubscribe ⟨.Disconnected, 1, [], []⟩ [116]
      = (.error .InvalidState, ⟨.Disconnected, 1, [], []⟩) ∧
    ((MqttClient.connect ⟨.Connected, 5, [7], [8]⟩ [99] none).2).state = .Connecting := by
  refine ⟨by decide, ?_, ?_, ?_, ?_⟩
  · exact C1_session_state_machine.2.2.1 _ [116] [104] (by decide)
  · exact C1_session_state_machine.2.2.2.1 _ [116] (by decide)
  · exact C1_session_state_machine.2.2.2.2 _ [116] (by decide)
  · exact C1_session_state_machine.2.1 _ [99] none

/-- C3: for every `u32` value, writing with `write_variable_int` and
reading back with `read_variable_int` yields the original value; the
encoding of 0 is exactly the single byte `0x00`, 127 encodes in one
byte, and 128 encodes as the two bytes `0x80 0x01`. -/
theorem C3_varint_roundtrip :
    (∀ v : Nat, v < 2 ^ 32 →
      readVarInt (writeVarIntBytes v) 0 = some (v, (writeVarIntBytes v).length)) ∧
    writeVarIntBytes 0 = [0] ∧
    (writeVarIntBytes 127).length = 1 ∧
    writeVarIntBytes 128 = [128, 1] := by
  refine ⟨?_, rfl, rfl, rfl⟩
  intro v hv
  have h := readVarInt_write v [] [] hv
  simpa using h

/-- Witness for C3 at `v = 300`. -/
theorem C3_varint_roundtrip_witness :
    (300 : Nat) < 2 ^ 32 ∧
    readVarInt (writeVarIntBytes 300) 0 = some (300, (writeVarIntBytes 300).length) :=
  ⟨by norm_num, C3_varint_roundtrip.1 300 (by norm_num)⟩

/-- C4 counterexample: the claim asserts a 1–4 byte encoding for every
`u32`, but `2^28 = 268435456` is a `u32` value whose encoding has five
bytes. -/
theorem C4_counterexample :
    (268435456 : Nat) < 2 ^ 32 ∧
    writeVarIntBytes 268435456 = [128, 128, 128, 128, 1] ∧
    ¬ (writeVarIntBytes 268435456).length ≤ 4 := by
  refine ⟨by norm_num, rfl, by decide⟩

/-- C4 (amended): `write_variable_int` produces the minimal-length
base-128 continuation encoding for every `u32` (its length is the least
`n ≥ 1` with `value < 128^n`; no padding bytes), always at least one
byte; the encoding occupies 1–4 bytes exactly for values below
`2^28 = 268435456`, while larger `u32` values take five bytes. -/
theorem C4_minimal_encoding :
    (∀ v n : Nat, 1 ≤ n → ((writeVarIntBytes v).length ≤ n ↔ v < 128 ^ n)) ∧
    (∀ v : Nat, 1 ≤ (writeVarIntBytes v).length) ∧
    (∀ v : Nat, v < 2 ^ 28 → (writeVarIntBytes v).length ≤ 4) := by
  refine ⟨writeVarIntBytes_length_le_iff, writeVarIntBytes_length_pos, ?_⟩
  intro v hv
  refine (writeVarIntBytes_length_le_iff v 4 (by norm_num)).mpr ?_
  norm_num at hv ⊢
  omega

/-- Witness for C4 (amended) at concrete inputs. -/
theorem C4_minimal_encoding_witness :
    ((1 : Nat) ≤ 2 ∧ ((writeVarIntBytes 300).length ≤ 2 ↔ (300 : Nat) < 128 ^ 2)) ∧
    ((300 : Nat) < 2 ^ 28 ∧ (writeVarIntBytes 300).length ≤ 4) :=
  ⟨⟨by norm_num, C4_minimal_encoding.1 300 2 (by norm_num)⟩,
   ⟨by norm_num, C4_minimal_encoding.2.2 300 (by norm_num)⟩⟩

/-- C7: building a SUBSCRIBE for topic filter `"a/b"` (bytes
`0x61 0x2F 0x62`) on a freshly connected session — `new`, `connect`,
then a successful CONNACK, so the packet-identifier counter is used for
the first time — produces fixed header `0x82`, one remaining-length
byte, packet identifier `0x00 0x01`, property length `0x00`, string
length `0x00 0x03`, the bytes of `"a/b"`, and subscription options
`0x00`. -/
theorem C7_subscribe_bytes :
    (match receivePacket (fun c _ _ => c) ((MqttClient.new.connect [99] none).2)
        [0x20, 2, 0, 0] with
      | some out => (out.client.subscribe [0x61, 0x2F, 0x62]).1
      | none => .error .InvalidPacket)
      = .ok [0x82, 9, 0x00, 0x01, 0x00, 0x00, 0x03, 0x61, 0x2F, 0x62, 0x00] := rfl

/-- C8: the packet-identifier counter starts at 1; `next` returns the
current value and then advances, so successive calls yield 1, 2, 3;
advancing past `0xFFFF` wraps through 0 but is forced back to 1; the
stored counter is never 0, and hence the counter never yields 0. -/
theorem C8_packet_id_counter :
    PacketIdCounter.new = 1 ∧
    (∀ c : Nat, (PacketIdCounter.next c).1 = c) ∧
    ((PacketIdCounter.next PacketIdCounter.new).1 = 1 ∧
      (PacketIdCounter.next (PacketIdCounter.next PacketIdCounter.new).2).1 = 2 ∧
      (PacketIdCounter.next
        (PacketIdCounter.next (PacketIdCounter.next PacketIdCounter.new).2).2).1 = 3) ∧
    (PacketIdCounter.next 0xFFFF).2 = 1 ∧
    (∀ c : Nat, (PacketIdCounter.next c).2 ≠ 0) ∧
    (∀ c : Nat, c ≠ 0 → (PacketIdCounter.next c).1 ≠ 0) := by
  refine ⟨rfl, fun c => rfl, ⟨rfl, rfl, rfl⟩, rfl, ?_, fun c h => h⟩
  intro c
  have h := Nat.le_max_right ((c + 1) % 65536) 1
  simp only [PacketIdCounter.next]
  omega

/-- Witness for C8 at `c = 1`. -/
theorem C8_packet_id_counter_witness :
    (1 : Nat) ≠ 0 ∧ (PacketIdCounter.next 1).1 ≠ 0 :=
  ⟨by decide, C8_packet_id_counter.2.2.2.2.2 1 (by decide)⟩

/-- C10: `receive_packet` on an empty byte slice returns `Ok` carrying
the session's current state, leaves the entire session (state, counter,
both buffers) unchanged, and never invokes the callback. -/
theorem C10_receive_empty (cb : MqttClient → List Nat → List Nat → MqttClient)
    (client : MqttClient) :
    receivePacket cb client [] = some ⟨.ok client.state, client, [], []⟩ := rfl

/-! ## Invariants of the receive loop -/

/-- Every state value the receive loop appends to its assignment record
is `Connected` or `Disconnected`. -/
theorem receiveLoop_writes_conn_or_disc
    (cb : MqttClient → List Nat → List Nat → MqttClient) :
    ∀ fuel client buf cursor calls writes out,
      receiveLoop cb fuel client buf cursor calls writes = some out →
      ∀ s ∈ out.writes, s ∈ writes ∨ s = .Connected ∨ s = .Disconnected := by
  intro fuel
  induction fuel with
  | zero =>
    intro client buf cursor calls writes out h
    simp [receiveLoop] at h
  | succ fuel ih =>
    intro client buf cursor calls writes out h
    rw [receiveLoop] at h
    split at h
    · simp at h
    · split at h
      · simp only [Option.some.injEq] at h
        subst h
        intro s hs
        exact Or.inl hs
      · split at h
        · simp at h
        · split at h
          · simp at h
          · split at h
            · simp at h
            · split at h
              · -- CONNACK
                split at h
                · simp at h
                · split at h
                  · simp at h
                  · split at h
                    · simp only [Option.some.injEq] at h
                      subst h
                      intro s hs
                      simp at hs
                      rcases hs with hs | hs
                      · exact Or.inl hs
                      · exact Or.inr (Or.inr hs)
                    · intro s hs
                      rcases ih _ _ _ _ _ _ h s hs with hmem | hco
                      · simp at hmem
                        rcases hmem with hmem | hmem
                        · exact Or.inl hmem
                        · exact Or.inr (Or.inl hmem)
                      · exact Or.inr hco
              · -- SUBACK
                exact fun s hs => ih _ _ _ _ _ _ h s hs
              · -- UNSUBACK
                exact fun s hs => ih _ _ _ _ _ _ h s hs
              · -- PUBLISH
                split at h
                · simp at h
                · split at h
                  · simp at h
                  · simp only [] at h
                    split at h
                    · simp at h
                    · split at h
                      · simp at h
                      · exact fun s hs => ih _ _ _ _ _ _ h s hs
              · -- DISCONNECT
                simp only [Option.some.injEq] at h
                subst h
                intro s hs
                simp at hs
                rcases hs with hs | hs
                · exact Or.inl hs
                · exact Or.inr (Or.inr hs)
              · -- fallback: InvalidPacket
                simp only [Option.some.injEq] at h
                subst h
                intro s hs
                exact Or.inl hs

/-- If the callback preserves "state is not `Connecting`", so does the
whole receive loop: the loop itself only ever assigns `Connected` or
`Disconnected`. -/
theorem receiveLoop_not_connecting
    (cb : MqttClient → List Nat → List Nat → MqttClient)
    (hcb : ∀ c t p, c.state ≠ .Connecting → (cb c t p).state ≠ .Connecting) :
    ∀ fuel client buf cursor calls writes out,
      receiveLoop cb fuel client buf cursor calls writes = some out →
      client.state ≠ .Connecting → out.client.state ≠ .Connecting := by
  intro fuel
  induction fuel with
  | zero =>
    intro client buf cursor calls writes out h
    simp [receiveLoop] at h
  | succ fuel ih =>
    intro client buf cursor calls writes out h hcl
    rw [receiveLoop] at h
    split at h
    · simp at h
    · split at h
      · simp only [Option.some.injEq] at h
        subst h
        exact hcl
      · split at h
        · simp at h
        · split at h
          · simp at h
          · split at h
            · simp at h
            · split at h
              · -- CONNACK
                split at h
                · simp at h
                · split at h
                  · simp at h
                  · split at h
                    · simp only [Option.some.injEq] at h
                      subst h
                      simp
                    · exact ih _ _ _ _ _ _ h (by simp)
              · -- SUBACK
                exact ih _ _ _ _ _ _ h hcl
              · -- UNSUBACK
                exact ih _ _ _ _ _ _ h hcl
              · -- PUBLISH
                split at h
                · simp at h
                · split at h
                  · simp at h
                  · simp only [] at h
                    split at h
                    · simp at h
                    · split at h
                      · simp at h
                      · exact ih _ _ _ _ _ _ h (hcb _ _ _ hcl)
              · -- DISCONNECT
                simp only [Option.some.injEq] at h
                subst h
                simp
              · -- fallback: InvalidPacket
                simp only [Option.some.injEq] at h
                subst h
                exact hcl

/-- C9: `receive_packet` never assigns `Connecting`: for every input
slice and every starting state, the only states the receive loop itself
writes are `Connected` and `Disconnected`; consequently, whenever the
user callback preserves "not `Connecting`", a session that is
`Connected` or `Disconnected` (indeed, any session not `Connecting`)
can never come out of `receive_packet` as `Connecting`. -/
theorem C9_receive_never_assigns_connecting
    (cb : MqttClient → List Nat → List Nat → MqttClient) (client : MqttClient)
    (packet : List Nat) (out : ReceiveOut)
    (h : receivePacket cb client packet = some out) :
    (∀ s ∈ out.writes, s = .Connected ∨ s = .Disconnected) ∧
    ((∀ c t p, c.state ≠ .Connecting → (cb c t p).state ≠ .Connecting) →
      client.state ≠ .Connecting → out.client.state ≠ .Connecting) := by
  constructor
  · intro s hs
    rcases receiveLoop_writes_conn_or_disc cb _ _ _ _ _ _ _ h s hs with hmem | hco
    · simp at hmem
    · exact hco
  · intro hcb hcl
    exact receiveLoop_not_connecting cb hcb _ _ _ _ _ _ _ h hcl

/-- Witness for C9 on a concrete successful-CONNACK run with the
identity callback. -/
theorem C9_receive_never_assigns_connecting_witness :
    (∀ s ∈ (⟨.ok .Connected, ⟨.Connected, 1, [], []⟩, [], [.Connected]⟩ : ReceiveOut).writes,
      s = MqttState.Connected ∨ s = MqttState.Disconnected) ∧
    (⟨.ok .Connected, ⟨.Connected, 1, [], []⟩, [], [.Connected]⟩ : ReceiveOut).client.state
      ≠ MqttState.Connecting := by
  have h := C9_receive_never_assigns_connecting (fun c _ _ => c)
    ⟨.Disconnected, 1, [], []⟩ [0x20, 2, 0, 0]
    ⟨.ok .Connected, ⟨.Connected, 1, [], []⟩, [], [.Connected]⟩ rfl
  exact ⟨h.1, h.2 (fun c t p hc => hc) (by decide)⟩

/-! ## Reading at structured positions inside a packet -/

theorem readU8_at (buf : List Nat) (cursor : Nat) (pre post : List Nat) (b : Nat)
    (hbuf : buf = pre ++ b :: post) (hcur : cursor = pre.length) :
    readU8 buf cursor = some (b, cursor + 1) := by
  subst hbuf hcur
  simp only [readU8, get?_append_cons]

theorem readU16_at (pre post : List Nat) (l : Nat) (hl : l < 65536) :
    readU16 (pre ++ (l / 256 :: l % 256 :: post)) pre.length
      = some (l, pre.length + 2) := by
  have hget0 : (pre ++ l / 256 :: l % 256 :: post).get? pre.length = some (l / 256) :=
    get?_append_cons pre _ _
  have hget1 : (pre ++ l / 256 :: l % 256 :: post).get? (pre.length + 1)
      = some (l % 256) := by
    have h := get?_append_cons (pre ++ [l / 256]) (l % 256) post
    simpa using h
  simp only [readU16, hget0, hget1]
  have hv : (l / 256) <<< 8 ||| l % 256 = l := by
    rw [Nat.lor_comm, Nat.shiftLeft_eq]
    rw [or_disjoint (show l % 256 < 2 ^ 8 by
      have := Nat.mod_lt l (show 0 < 256 by norm_num)
      omega)]
    have := Nat.mod_add_div' l 256
    norm_num
    omega
  rw [hv]

theorem readString_at (pre s post : List Nat) (hl : s.length < 65536)
    (hutf : validUtf8 s = true) :
    readString (pre ++ (s.length / 256 :: s.length % 256 :: (s ++ post))) pre.length
      = some (s, pre.length + 2 + s.length) := by
  unfold readString
  rw [readU16_at pre (s ++ post) s.length hl]
  have hdrop : ((pre ++ s.length / 256 :: s.length % 256 :: (s ++ post)).drop
      (pre.length + 2)).take s.length = s := by
    have h : pre ++ s.length / 256 :: s.length % 256 :: (s ++ post)
        = (pre ++ [s.length / 256, s.length % 256]) ++ (s ++ post) := by simp
    rw [h, List.drop_left' (by simp), List.take_left]
  have hbound : pre.length + 2 + s.length
      ≤ (pre ++ s.length / 256 :: s.length % 256 :: (s ++ post)).length := by
    simp only [List.length_append, List.length_cons]
    omega
  simp only []
  rw [if_pos hbound]
  simp only [hdrop, hutf, if_true]

theorem readBytesRaw_at (pre mid post : List Nat) :
    readBytesRaw (pre ++ (mid ++ post)) pre.length mid.length
      = some (mid, pre.length + mid.length) := by
  unfold readBytesRaw
  rw [if_pos (by simp only [List.length_append]; omega)]
  rw [List.drop_left, List.take_left]

/-- When the cursor has reached the end of the input, the receive loop
exits successfully with the current state. -/
theorem receiveLoop_at_end (cb : MqttClient → List Nat → List Nat → MqttClient)
    (fuel : Nat) (client : MqttClient) (buf : List Nat) (cursor : Nat)
    (calls : List (List Nat × List Nat)) (writes : List MqttState)
    (hcur : cursor = buf.length) (hfuel : 1 ≤ fuel) :
    receiveLoop cb fuel client buf cursor calls writes
      = some ⟨.ok client.state, client, calls, writes⟩ := by
  obtain ⟨f, rfl⟩ : ∃ f, fuel = f + 1 := ⟨fuel - 1, by omega⟩
  rw [receiveLoop, if_neg (by omega), if_pos (by omega)]

/-! ## Claim theorems: the receive dispatch -/

/-- C2: on a CONNACK packet `receive_packet` reads and discards one
acknowledge-flags byte (`a`, arbitrary) and reads the reason-code byte.
A non-zero reason code sets the state to `Disconnected` and returns
`ConnectionRefused`, processing none of the bytes that remain in the
same input slice (`rest` arbitrary, no callback, no further state
write).  A zero reason code sets the state to `Connected`: the loop
continues at the packet's declared end with the `Connected` state
recorded, and on a well-formed single CONNACK the call returns
`Ok Connected`. -/
theorem C2_connack_dispatch :
    (∀ (cb : MqttClient → List Nat → List Nat → MqttClient) (client : MqttClient)
      (hdr L a rc : Nat) (rest : List Nat),
      hdr >>> 4 = 2 → L < 2 ^ 32 → rc ≠ 0 →
      receivePacket cb client (hdr :: (writeVarIntBytes L ++ (a :: rc :: rest)))
        = some ⟨.error .ConnectionRefused, { client with state := .Disconnected },
            [], [.Disconnected]⟩) ∧
    (∀ (cb : MqttClient → List Nat → List Nat → MqttClient) (client : MqttClient)
      (hdr L a : Nat) (rest : List Nat),
      hdr >>> 4 = 2 → L < 2 ^ 32 →
      receivePacket cb client (hdr :: (writeVarIntBytes L ++ (a :: 0 :: rest)))
        = receiveLoop cb (hdr :: (writeVarIntBytes L ++ (a :: 0 :: rest))).length
            { client with state := .Connected }
            (hdr :: (writeVarIntBytes L ++ (a :: 0 :: rest)))
            ((writeVarIntBytes L).length + 1 + L) [] [.Connected]) ∧
    (∀ (cb : MqttClient → List Nat → List Nat → MqttClient) (client : MqttClient)
      (hdr a : Nat),
      hdr >>> 4 = 2 →
      receivePacket cb client [hdr, 2, a, 0]
        = some ⟨.ok .Connected, { client with state := .Connected },
            [], [.Connected]⟩) := by
  refine ⟨?_, ?_, ?_⟩
  · intro cb client hdr L a rc rest hhdr hL hrc
    have h2 : ControlPacketType.fromU8 (hdr >>> 4) = some .CONNACK := by rw [hhdr]; rfl
    have h1 : readU8 (hdr :: (writeVarIntBytes L ++ (a :: rc :: rest))) 0
        = some (hdr, 1) := rfl
    have h3 : readVarInt (hdr :: (writeVarIntBytes L ++ (a :: rc :: rest))) 1
        = some (L, (writeVarIntBytes L).length + 1) := by
      have h := readVarInt_write L [hdr] (a :: rc :: rest) hL
      simpa [Nat.add_comm] using h
    have h4 : readU8 (hdr :: (writeVarIntBytes L ++ (a :: rc :: rest)))
        ((writeVarIntBytes L).length + 1)
        = some (a, (writeVarIntBytes L).length + 1 + 1) :=
      readU8_at _ _ (hdr :: writeVarIntBytes L) (rc :: rest) a (by simp) (by simp)
    have h5 : readU8 (hdr :: (writeVarIntBytes L ++ (a :: rc :: rest)))
        ((writeVarIntBytes L).length + 1 + 1)
        = some (rc, (writeVarIntBytes L).length + 1 + 1 + 1) :=
      readU8_at _ _ (hdr :: (writeVarIntBytes L ++ [a])) rest rc (by simp) (by simp)
    unfold receivePacket
    rw [receiveLoop]
    rw [if_neg (Nat.not_lt_zero _), if_neg (by simp)]
    simp only [h1, h2, h3, h4, h5]
    simp [hrc]
  · intro cb client hdr L a rest hhdr hL
    have h2 : ControlPacketType.fromU8 (hdr >>> 4) = some .CONNACK := by rw [hhdr]; rfl
    have h1 : readU8 (hdr :: (writeVarIntBytes L ++ (a :: 0 :: rest))) 0
        = some (hdr, 1) := rfl
    have h3 : readVarInt (hdr :: (writeVarIntBytes L ++ (a :: 0 :: rest))) 1
        = some (L, (writeVarIntBytes L).length + 1) := by
      have h := readVarInt_write L [hdr] (a :: 0 :: rest) hL
      simpa [Nat.add_comm] using h
    have h4 : readU8 (hdr :: (writeVarIntBytes L ++ (a :: 0 :: rest)))
        ((writeVarIntBytes L).length + 1)
        = some (a, (writeVarIntBytes L).length + 1 + 1) :=
      readU8_at _ _ (hdr :: writeVarIntBytes L) (0 :: rest) a (by simp) (by simp)
    have h5 : readU8 (hdr :: (writeVarIntBytes L ++ (a :: 0 :: rest)))
        ((writeVarIntBytes L).length + 1 + 1)
        = some (0, (writeVarIntBytes L).length + 1 + 1 + 1) :=
      readU8_at _ _ (hdr :: (writeVarIntBytes L ++ [a])) rest 0 (by simp) (by simp)
    unfold receivePacket
    rw [receiveLoop]
    rw [if_neg (Nat.not_lt_zero _), if_neg (by simp)]
    simp only [h1, h2, h3, h4, h5]
    simp
  · intro cb client hdr a hhdr
    have h2 : ControlPacketType.fromU8 (hdr >>> 4) = some .CONNACK := by rw [hhdr]; rfl
    unfold receivePacket
    rw [receiveLoop]
    rw [if_neg (Nat.not_lt_zero _), if_neg (by simp)]
    simp only [h2, show readU8 [hdr, 2, a, 0] 0 = some (hdr, 1) from rfl,
      show readVarInt [hdr, 2, a, 0] 1 = some (2, 2) from rfl,
      show readU8 [hdr, 2, a, 0] 2 = some (a, 3) from rfl,
      show readU8 [hdr, 2, a, 0] 3 = some (0, 4) from rfl]
    simp only [ne_eq, not_true_eq_false, if_false, ite_false]
    rw [receiveLoop_at_end _ _ _ _ _ _ _ (by simp) (by simp)]
    simp

/-- Witness for C2: the CONNACK scenarios with reason codes `0x80` and
`0`; trailing byte `0x30` after the refused CONNACK is not processed. -/
theorem C2_connack_dispatch_witness :
    ((0x20 : Nat) >>> 4 = 2 ∧ (2 : Nat) < 2 ^ 32 ∧ (0x80 : Nat) ≠ 0 ∧
      receivePacket (fun c _ _ => c) ⟨.Connecting, 1, [], []⟩
          (0x20 :: (writeVarIntBytes 2 ++ (0 :: 0x80 :: [0x30])))
        = some ⟨.error .ConnectionRefused, ⟨.Disconnected, 1, [], []⟩,
            [], [.Disconnected]⟩) ∧
    receivePacket (fun c _ _ => c) ⟨.Connecting, 1, [], []⟩ [0x20, 2, 0, 0]
      = some ⟨.ok .Connected, ⟨.Connected, 1, [], []⟩, [], [.Connected]⟩ := by
  refine ⟨⟨by decide, by decide, by decide, ?_⟩, ?_⟩
  · exact C2_connack_dispatch.1 (fun c _ _ => c) ⟨.Connecting, 1, [], []⟩
      0x20 2 0 0x80 [0x30] (by decide) (by decide) (by decide)
  · exact C2_connack_dispatch.2.2 (fun c _ _ => c) ⟨.Connecting, 1, [], []⟩
      0x20 0 (by decide)

/-- C5 counterexample: a packet with leading type nibble 0 (not one of
the five handled types, so the claim predicts an immediate
`InvalidPacket` failure) instead hits the failed
`ControlPacketType::from_u8(..).unwrap()` — a fatal abort (`none`), not
an `InvalidPacket` error. -/
theorem C5_counterexample :
    receivePacket (fun c _ _ => c) ⟨.Connected, 1, [], []⟩ [0, 0] = none ∧
    receivePacket (fun c _ _ => c) ⟨.Connected, 1, [], []⟩ [0, 0]
      ≠ some ⟨.error .InvalidPacket, ⟨.Connected, 1, [], []⟩, [], []⟩ := by
  exact ⟨rfl, by decide⟩

/-- C5 (amended): for every received packet whose leading type nibble is
a valid control-packet code (1–15) other than CONNACK, SUBACK, UNSUBACK,
PUBLISH, DISCONNECT, `receive_packet` fails with `InvalidPacket`
immediately — no subsequent packet concatenated in the same input slice
is processed (`rest` arbitrary and untouched), no callback runs, and the
session is unchanged.  A type nibble of 0 instead aborts fatally on the
`from_u8` unwrap. -/
theorem C5_unhandled_type_invalid_packet
    (cb : MqttClient → List Nat → List Nat → MqttClient) (client : MqttClient)
    (hdr L : Nat) (rest : List Nat) (ty : ControlPacketType)
    (hty : ControlPacketType.fromU8 (hdr >>> 4) = some ty)
    (hmem : ty ∉ ([.CONNACK, .SUBACK, .UNSUBACK, .PUBLISH, .DISCONNECT] :
      List ControlPacketType))
    (hL : L < 2 ^ 32) :
    receivePacket cb client (hdr :: (writeVarIntBytes L ++ rest))
      = some ⟨.error .InvalidPacket, client, [], []⟩ := by
  have h1 : readU8 (hdr :: (writeVarIntBytes L ++ rest)) 0 = some (hdr, 1) := rfl
  have h3 : readVarInt (hdr :: (writeVarIntBytes L ++ rest)) 1
      = some (L, (writeVarIntBytes L).length + 1) := by
    have h := readVarInt_write L [hdr] rest hL
    simpa [Nat.add_comm] using h
  unfold receivePacket
  rw [receiveLoop]
  rw [if_neg (Nat.not_lt_zero _), if_neg (by simp)]
  simp only [h1, hty, h3]
  cases ty <;> simp_all

/-- Witness for C5 (amended): the leading PUBACK of the spec's
two-packet scenario fails with `InvalidPacket` and the PUBLISH behind it
is not processed. -/
theorem C5_unhandled_type_invalid_packet_witness :
    ControlPacketType.fromU8 ((0x40 : Nat) >>> 4) = some .PUBACK ∧
    (ControlPacketType.PUBACK ∉ ([.CONNACK, .SUBACK, .UNSUBACK, .PUBLISH, .DISCONNECT] :
      List ControlPacketType)) ∧
    (0 : Nat) < 2 ^ 32 ∧
    receivePacket (fun c _ _ => c) ⟨.Connected, 1, [], []⟩
        (0x40 :: (writeVarIntBytes 0 ++ [0x30, 6, 0, 1, 0x74, 0, 0x68, 0x69]))
      = some ⟨.error .InvalidPacket, ⟨.Connected, 1, [], []⟩, [], []⟩ := by
  refine ⟨rfl, by decide, by decide, ?_⟩
  exact C5_unhandled_type_invalid_packet (fun c _ _ => c) ⟨.Connected, 1, [], []⟩
    0x40 0 [0x30, 6, 0, 1, 0x74, 0, 0x68, 0x69] .PUBACK rfl (by decide) (by decide)

/-- C6: dispatching a PUBLISH packet, `receive_packet` reads the topic
string (2-byte length then that many UTF-8 bytes), reads the
property-length variable integer and skips that many bytes, computes
the payload length as the declared remaining length minus the distance
from the mark, reads that many raw bytes as the payload, and invokes
the callback exactly once with the session, that topic, and that
payload; the call then returns the resulting session's state. -/
theorem C6_publish_dispatch (cb : MqttClient → List Nat → List Nat → MqttClient)
    (client : MqttClient) (hdr L : Nat) (topic props payload : List Nat)
    (hhdr : hdr >>> 4 = 3)
    (htl : topic.length < 65536)
    (hutf : validUtf8 topic = true)
    (hP : props.length < 2 ^ 32)
    (hL : L < 2 ^ 32)
    (hLdef : L = 2 + topic.length + (writeVarIntBytes props.length).length
      + props.length + payload.length) :
    receivePacket cb client
      (hdr :: (writeVarIntBytes L ++ (topic.length / 256 :: topic.length % 256 ::
        (topic ++ (writeVarIntBytes props.length ++ (props ++ payload))))))
      = some ⟨.ok (cb client topic payload).state, cb client topic payload,
          [(topic, payload)], []⟩ := by
  set w := writeVarIntBytes L with hw
  set wp := writeVarIntBytes props.length with hwp
  set buf := hdr :: (w ++ (topic.length / 256 :: topic.length % 256 ::
    (topic ++ (wp ++ (props ++ payload))))) with hbuf
  have hty : ControlPacketType.fromU8 (hdr >>> 4) = some .PUBLISH := by rw [hhdr]; rfl
  have h1 : readU8 buf 0 = some (hdr, 1) := rfl
  have h3 : readVarInt buf 1 = some (L, w.length + 1) := by
    have h := readVarInt_write L [hdr] (topic.length / 256 :: topic.length % 256 ::
      (topic ++ (wp ++ (props ++ payload)))) hL
    rw [hbuf, hw]
    simpa [Nat.add_comm] using h
  have h4 : readString buf (w.length + 1) = some (topic, w.length + 1 + 2 + topic.length) := by
    have h := readString_at (hdr :: w) topic (wp ++ (props ++ payload)) htl hutf
    rw [hbuf]
    simpa [Nat.add_comm, Nat.add_assoc, Nat.add_left_comm] using h
  have h5 : readVarInt buf (w.length + 1 + 2 + topic.length)
      = some (props.length, w.length + 1 + 2 + topic.length + wp.length) := by
    have h := readVarInt_write props.length
      (hdr :: (w ++ (topic.length / 256 :: topic.length % 256 :: topic)))
      (props ++ payload) hP
    have hpre : (hdr :: (w ++ (topic.length / 256 :: topic.length % 256 :: topic))).length
        = w.length + 1 + 2 + topic.length := by
      simp only [List.length_cons, List.length_append]
      omega
    rw [hpre] at h
    have hshape : (hdr :: (w ++ (topic.length / 256 :: topic.length % 256 :: topic)))
        ++ (writeVarIntBytes props.length ++ (props ++ payload)) = buf := by
      rw [hbuf, hwp]
      simp
    rw [hshape] at h
    rw [hwp]
    exact h
  have h6 : readBytesRaw buf (w.length + 1 + 2 + topic.length + wp.length + props.length)
      payload.length
      = some (payload, w.length + 1 + 2 + topic.length + wp.length + props.length
          + payload.length) := by
    have h := readBytesRaw_at
      (hdr :: (w ++ (topic.length / 256 :: topic.length % 256 :: (topic ++ (wp ++ props)))))
      payload []
    have hpre : (hdr :: (w ++ (topic.length / 256 :: topic.length % 256 ::
        (topic ++ (wp ++ props))))).length
        = w.length + 1 + 2 + topic.length + wp.length + props.length := by
      simp only [List.length_cons, List.length_append]
      omega
    rw [hpre] at h
    have hshape : (hdr :: (w ++ (topic.length / 256 :: topic.length % 256 ::
        (topic ++ (wp ++ props))))) ++ (payload ++ []) = buf := by
      rw [hbuf]
      simp
    rw [hshape] at h
    exact h
  unfold receivePacket
  rw [receiveLoop]
  rw [if_neg (Nat.not_lt_zero _), if_neg (by rw [hbuf]; simp)]
  simp only [h1, hty, h3, h4, h5]
  rw [if_neg (show ¬ L < w.length + 1 + 2 + topic.length + wp.length + props.length
    - (w.length + 1) from by omega)]
  rw [show L - (w.length + 1 + 2 + topic.length + wp.length + props.length
    - (w.length + 1)) = payload.length from by omega]
  simp only [h6]
  rw [receiveLoop_at_end _ _ _ _ _ _ _
    (show w.length + 1 + L = buf.length from by
      rw [hbuf]
      simp only [List.length_cons, List.length_append]
      omega)
    (by rw [hbuf]; simp)]
  simp

/-- Witness for C6: the spec scenario — topic `"t"` (0x74), zero
properties, payload `"hi"` (0x68 0x69) — invokes the callback exactly
once with topic `"t"` and payload `"hi"`. -/
theorem C6_publish_dispatch_witness :
    receivePacket (fun c t p => { c with messageBuffer := t ++ p })
        ⟨.Connected, 1, [], []⟩ [0x30, 6, 0, 1, 0x74, 0, 0x68, 0x69]
      = some ⟨.ok .Connected, ⟨.Connected, 1, [], [0x74, 0x68, 0x69]⟩,
          [([0x74], [0x68, 0x69])], []⟩ :=
  C6_publish_dispatch (fun c t p => { c with messageBuffer := t ++ p })
    ⟨.Connected, 1, [], []⟩ 0x30 6 [0x74] [] [0x68, 0x69]
    (by decide) (by decide) (by decide) (by decide) (by decide) (by decide)
